import Mathlib

/-!
Verification of the commitsum repository: a shallow embedding of its
statistics calculator, pattern filter, file cache, GitHub client parsing,
and terminal-UI state machine, with theorems checking the specification's
claims against the embedded code.

Go maps are embedded as association lists paired with an explicit
iteration order (Go's map iteration order is unspecified), durations and
timestamps as integers (nanoseconds), and external collaborators
(clipboard, text inputs, clock, JSON decoding) as function parameters.
-/

namespace Commitsum

/-- Embeds `entity.Commit` from the domain entities: one commit's repository and
message headline. -/
structure Commit where
  repository : String
  message : String
deriving DecidableEq, Repr

/-- Embeds `entity.Statistics`. `CommitsPerRepo` is a Go map built by inserting
each repo once (input keys are distinct), embedded as the association list
in insertion order. -/
structure Statistics where
  totalCommits : Nat
  totalRepositories : Nat
  commitsPerRepo : List (String × Nat)
  mostActiveRepo : String
  maxCommits : Nat
deriving DecidableEq, Repr

/-- Initial accumulator of `CalculateStatistics`: zero-valued `Statistics`
with an empty `CommitsPerRepo` map. -/
def statsInit : Statistics :=
  { totalCommits := 0, totalRepositories := 0, commitsPerRepo := []
    mostActiveRepo := "", maxCommits := 0 }

/-- One iteration of the loop body of `CommitUseCase.CalculateStatistics`:
skip unselected repos; record the count, add to the totals, and update
`MostActiveRepo`/`MaxCommits` on a strictly greater count. -/
def statsStep (selected : String → Bool) (stats : Statistics)
    (kv : String × List Commit) : Statistics :=
  if !selected kv.1 then stats
  else
    let count := kv.2.length
    let stats :=
      { stats with
        commitsPerRepo := stats.commitsPerRepo ++ [(kv.1, count)]
        totalCommits := stats.totalCommits + count
        totalRepositories := stats.totalRepositories + 1 }
    if count > stats.maxCommits then
      { stats with maxCommits := count, mostActiveRepo := kv.1 }
    else stats

/-- Embeds `CommitUseCase.CalculateStatistics`. The Go code ranges over the map
`commits`; the iteration order is unspecified, so the embedding takes the
map as an association list `commits` in one concrete iteration order. -/
def calculateStatistics (commits : List (String × List Commit))
    (selected : String → Bool) : Statistics :=
  commits.foldl (statsStep selected) statsInit

/-- Counts of the selected entries, in iteration order. -/
def selectedCounts (commits : List (String × List Commit))
    (selected : String → Bool) : List Nat :=
  (commits.filter fun kv => selected kv.1).map fun kv => kv.2.length

/-- Embeds `strings.ToLower` on the ASCII characters the program compares. -/
def toLowerStr (s : String) : String :=
  ⟨s.data.map Char.toLower⟩

/-- One of the glob metacharacters of `strings.ContainsAny(pattern, "*?[]")`. -/
def isWildcardChar (c : Char) : Bool :=
  c = '*' || c = '?' || c = '[' || c = ']'

/-- Embeds `strings.ContainsAny(pattern, "*?[]")`. -/
def containsWildcard (s : String) : Bool :=
  s.data.any isWildcardChar

/-- Embeds `strings.Contains(s, sub)`: substring containment. -/
def containsSubstring (s sub : List Char) : Bool :=
  decide (sub <:+: s)

/-- A token of the regex built by `matchPattern`: after `regexp.QuoteMeta`,
`\*` is replaced by `.*` (star), `\?` by `.` (any one character), and every
other character is a quoted literal. `[` and `]` are quoted by `QuoteMeta`,
so they match literally. -/
inductive GlobTok where
  | star
  | anyChar
  | lit (c : Char)
deriving DecidableEq, Repr

/-- Compilation of the lowercased pattern into regex tokens, embedding
`regexp.QuoteMeta` + the two `strings.ReplaceAll` rewrites. -/
def compileGlob : List Char → List GlobTok
  | [] => []
  | c :: cs =>
    (if c = '*' then GlobTok.star
     else if c = '?' then GlobTok.anyChar
     else GlobTok.lit c) :: compileGlob cs

/-- The suffixes of `cs` reachable by letting `.*` consume characters:
Go/RE2 `.` (default flags) matches any character except a newline, so
consumption stops at the first newline. -/
def starSuffixes : List Char → List (List Char)
  | [] => [[]]
  | c :: cs => (c :: cs) :: (if c = '\n' then [] else starSuffixes cs)

/-- Matching of the anchored regex `^...$` built by `matchPattern`, with
Go/RE2 default flags: `.` (from `*` and `?`) matches any character except a
newline. -/
def globMatch : List GlobTok → List Char → Bool
  | [], cs => cs.isEmpty
  | .star :: ps, cs => (starSuffixes cs).any fun t => globMatch ps t
  | .anyChar :: _, [] => false
  | .anyChar :: ps, c :: cs => c != '\n' && globMatch ps cs
  | .lit _ :: _, [] => false
  | .lit a :: ps, c :: cs => a == c && globMatch ps cs

/-- All suffixes of a character list. -/
def allSuffixes : List Char → List (List Char)
  | [] => [[]]
  | c :: cs => (c :: cs) :: allSuffixes cs

/-- Modelled from the spec's words, for comparison with the code's
`globMatch`: the anchored matcher in which `*` matches any sequence and `?`
matches exactly one character, with no newline restriction. -/
def globMatchSpec : List GlobTok → List Char → Bool
  | [], cs => cs.isEmpty
  | .star :: ps, cs => (allSuffixes cs).any fun t => globMatchSpec ps t
  | .anyChar :: _, [] => false
  | .anyChar :: ps, _ :: cs => globMatchSpec ps cs
  | .lit _ :: _, [] => false
  | .lit a :: ps, c :: cs => a == c && globMatchSpec ps cs

/-- Embeds `matchPattern` from the commit use case: lowercase both strings; plain
substring containment when the pattern has no glob metacharacter, otherwise
the anchored regex match. (The `regexp.Compile` fallback in the source is
dead code: quoting by `QuoteMeta` always yields a valid regex.) -/
def matchPattern (pattern name : String) : Bool :=
  let p := toLowerStr pattern
  let n := toLowerStr name
  if !containsWildcard p then containsSubstring n.data p.data
  else globMatch (compileGlob p.data) n.data

/-- Embeds `CommitUseCase.FilterReposByPattern`. -/
def filterReposByPattern (repos : List String) (pattern : String) : List String :=
  if pattern = "" then repos
  else repos.filter fun repo => matchPattern pattern repo

/-- Embeds `entity.CommitData`: commits grouped by repository (the Go map as an
association list in insertion order), the repository list, and the
truncation warning. The cache's `cachedCommitData` has the same fields. -/
structure CommitData where
  commits : List (String × List Commit)
  repoList : List String
  warning : String
deriving DecidableEq, Repr

/-- The `Data` field of a cache `Entry` as seen through the round-trip
`json.Marshal(entry.Data)` / `json.Unmarshal(..., target)` in
`FileCache.Get`: either data the target type accepts, or data whose
unmarshal into the target fails. -/
inductive Payload where
  | ok (data : CommitData)
  | incompatible
deriving DecidableEq, Repr

/-- One file of the cache directory as `FileCache.Get` reads it: bytes that
fail to unmarshal into `Entry`, or a well-formed entry
`{data, timestamp, ttl}` (timestamp and ttl in nanoseconds). -/
inductive CacheFile where
  | corrupt
  | entry (data : Payload) (timestamp : Int) (ttl : Int)
deriving DecidableEq, Repr

/-- The cache directory: one file per key. -/
abbrev Store := List (String × CacheFile)

/-- Embeds `os.Remove` of one cache file. -/
def removeFile (store : Store) (key : String) : Store :=
  store.filter fun kv => kv.1 != key

/-- Embeds `os.WriteFile` of one cache file (create or overwrite). -/
def writeFile (store : Store) (key : String) (f : CacheFile) : Store :=
  (key, f) :: removeFile store key

/-- Embeds `Entry.IsExpired`: `time.Since(e.Timestamp) > e.TTL`. -/
def isExpired (now timestamp ttl : Int) : Bool :=
  now - timestamp > ttl

/-- The `(found, err)` pair returned by `FileCache.Get`, together with the
value written into `target` when found. -/
structure GetResult where
  data : Option CommitData
  found : Bool
  err : Option String
deriving DecidableEq, Repr

/-- Embeds `FileCache.Get`: missing file is a clean miss; bytes that fail to
unmarshal into `Entry` delete the file and return an error; an expired
entry deletes the file and returns a clean miss; data that fails to
unmarshal into the target returns an error without deleting; otherwise a
hit. Returns the result and the cache directory after the call. -/
def fileGet (store : Store) (key : String) (now : Int) : GetResult × Store :=
  match store.lookup key with
  | none => (⟨none, false, none⟩, store)
  | some .corrupt =>
    (⟨none, false, some "failed to unmarshal cache entry"⟩, removeFile store key)
  | some (.entry payload ts ttl) =>
    if isExpired now ts ttl then (⟨none, false, none⟩, removeFile store key)
    else
      match payload with
      | .incompatible => (⟨none, false, some "failed to unmarshal target data"⟩, store)
      | .ok d => (⟨some d, true, none⟩, store)

/-- Embeds `FileCache.Set`: writes `Entry{Data: data, Timestamp: now, TTL: ttl}`. -/
def fileSet (store : Store) (key : String) (data : CommitData) (ttl now : Int) : Store :=
  writeFile store key (.entry (.ok data) now ttl)

/-- Embeds `FileCache.GetCacheKey`: joins the purpose and the parameters with `-`,
hashes the combined string (md5, kept abstract as `hash`), and renders it
as a hex name with a `.json` extension. -/
def getCacheKey (hash : String → String) (purpose : String) (params : List String) : String :=
  hash (params.foldl (fun acc p => acc ++ "-" ++ p) purpose) ++ ".json"

/-- Whether a file name matches the glob `*.json` used by
`CommitsCache.Invalidate` (cache file names contain no path separator). -/
def endsWithJson (name : String) : Bool :=
  ".json".data.isSuffixOf name.data

/-- Embeds `CommitsCache.Invalidate(author)`: removes every `*.json` file of the
cache directory; the author argument is only logged. -/
def invalidateStore (store : Store) : Store :=
  store.filter fun kv => !endsWithJson kv.1

/-- Embeds `CommitsCache.GetCommits`: derives the key from
`("commits", author, dateRange)` and reads through `FileCache.Get`. -/
def getCommits (hash : String → String) (store : Store)
    (author dateRange : String) (now : Int) : GetResult × Store :=
  fileGet store (getCacheKey hash "commits" [author, dateRange]) now

/-- The cache consultation in `CommitUseCase.GetCommitsForRange`: the cached
data is used only when `err == nil && found`; in every other case the
pipeline proceeds to fetch from GitHub, exactly as on a miss. -/
def usesCachedResult (found : Bool) (err : Option String) : Bool :=
  err.isNone && found

/-- One record of the GitHub CLI's commit-search output
(`commitSearchItem`): the repository identifier fields and the commit
message fields. -/
structure CommitSearchItem where
  repositoryFullName : String
  repositoryNameWithOwner : String
  repositoryName : String
  commitMessage : String
  commitMessageHeadline : String
deriving DecidableEq, Repr

/-- Embeds `unicode.IsSpace`, as used by `bytes.TrimSpace`. -/
def isGoSpace (c : Char) : Bool :=
  c = '\t' || c = '\n' || c = '\x0B' || c = '\x0C' || c = '\r' || c = ' ' ||
  c = '\x85' || c = '\xA0' || c = ' ' ||
  (Char.ofNat 0x2000 ≤ c && c ≤ Char.ofNat 0x200A) ||
  c = ' ' || c = ' ' || c = ' ' || c = ' ' || c = '　'

/-- Embeds `bytes.TrimSpace`: drop leading and trailing whitespace. -/
def trimSpace (s : List Char) : List Char :=
  ((s.dropWhile isGoSpace).reverse.dropWhile isGoSpace).reverse

/-- Embeds `Client.parseCommitSearchItems`: whitespace-only output parses to no
items and no error; otherwise output starting with `[` is decoded as one
JSON array, and anything else as a stream of JSON values. The two JSON
decoders are kept abstract as parameters. -/
def parseCommitSearchItems
    (decodeArray decodeStream : List Char → Except String (List CommitSearchItem))
    (data : List Char) : Except String (List CommitSearchItem) :=
  if (trimSpace data).isEmpty then .ok []
  else
    let trimmed := trimSpace data
    if trimmed.head? = some '[' then decodeArray trimmed
    else decodeStream trimmed

/-- Repository resolution in `FetchCommitsByAuthorAndDate`:
`nameWithOwner`, falling back to `full_name`, then `name`. -/
def resolveRepo (item : CommitSearchItem) : String :=
  if item.repositoryNameWithOwner ≠ "" then item.repositoryNameWithOwner
  else if item.repositoryFullName ≠ "" then item.repositoryFullName
  else item.repositoryName

/-- Embeds `strings.Split(s, "\n")[0]`: the first line of a commit message. -/
def firstLine (s : String) : String :=
  ⟨s.data.takeWhile fun c => c != '\n'⟩

/-- Message resolution in `FetchCommitsByAuthorAndDate`: `messageHeadline`,
falling back to the first line of `message`. -/
def resolveMessage (item : CommitSearchItem) : String :=
  if item.commitMessageHeadline ≠ "" then item.commitMessageHeadline
  else firstLine item.commitMessage

/-- Embeds `commitMap[repo] = append(commitMap[repo], commit)` on the Go map in
first-insertion key order. -/
def insertCommit (m : List (String × List Commit)) (repo : String) (c : Commit) :
    List (String × List Commit) :=
  match m with
  | [] => [(repo, [c])]
  | (k, cs) :: t =>
    if k = repo then (k, cs ++ [c]) :: t else (k, cs) :: insertCommit t repo c

/-- The grouping loop of `FetchCommitsByAuthorAndDate`: resolve repository
and message, discard items missing either, group by repository. -/
def groupItems (items : List CommitSearchItem) : List (String × List Commit) :=
  items.foldl
    (fun m item =>
      let repo := resolveRepo item
      let message := resolveMessage item
      if repo = "" || message = "" then m
      else insertCommit m repo ⟨repo, message⟩)
    []

/-- Embeds `sort.Strings` over the key set of the commit map. -/
def sortStrings (l : List String) : List String :=
  l.mergeSort fun a b => a ≤ b

/-- The result assembly of `FetchCommitsByAuthorAndDate` after a successful
command run and parse: truncation warning when the item count reaches the
limit (1000 in `NewClient`), commits grouped by repository, sorted repo
list. -/
def buildCommitData (limit : Nat) (items : List CommitSearchItem) : CommitData :=
  let warning :=
    if items.length ≥ limit then
      "Results capped at " ++ toString limit ++
        " commits by GitHub; summary may be incomplete."
    else ""
  let commitMap := groupItems items
  { commits := commitMap
    repoList := sortStrings (commitMap.map Prod.fst)
    warning := warning }

/-- Embeds `FetchCommitsByAuthorAndDate` from the command's raw output onward
(the command itself having exited successfully): parse, then assemble the
`CommitData`. -/
def fetchCommitsFromOutput
    (decodeArray decodeStream : List Char → Except String (List CommitSearchItem))
    (out : List Char) : Except String CommitData :=
  match parseCommitSearchItems decodeArray decodeStream out with
  | .error e => .error e
  | .ok items => .ok (buildCommitData 1000 items)

/-- The UI screens (`screenState`). -/
inductive Screen where
  | dateRange
  | dateSelect
  | repoFilter
  | repoList
  | summary
  | export
  | stats
  | loading
deriving DecidableEq, Repr

/-- The Bubble Tea messages the update loop distinguishes: a key press
(identified by its `msg.String()` name), the `commitsLoadedMsg` completion
event of the asynchronous fetch, and the spinner's timer tick. -/
inductive Msg where
  | key (k : String)
  | commitsLoaded (commits : List (String × List Commit)) (repoList : List String)
      (warning : String) (err : Option String)
  | spinnerTick
deriving DecidableEq, Repr

/-- The session state of `ui.Model` (the spinner, styles, config and
injected use-case handles carry no session data and are omitted; the two
text inputs are represented by their values). -/
structure Model where
  commits : List (String × List Commit)
  repoList : List String
  filteredRepos : List String
  cursor : Nat
  selected : List (String × Bool)
  screen : Screen
  dateInputValue : String
  filterInputValue : String
  filterActive : Bool
  dateRangeIdx : Nat
  startDate : String
  endDate : String
  exportFormatIdx : Nat
  stats : Option Statistics
  err : Option String
  message : String
  warning : String
  loading : Bool
deriving DecidableEq, Repr

/-- Lookup in the Go map `m.selected` (absent keys read as `false`). -/
def lookupSel (sel : List (String × Bool)) (repo : String) : Bool :=
  (sel.lookup repo).getD false

/-- Embeds `m.selected[repo] = v` on the Go map in first-insertion key order. -/
def setSel (sel : List (String × Bool)) (repo : String) (v : Bool) :
    List (String × Bool) :=
  match sel with
  | [] => [(repo, v)]
  | (k, b) :: t => if k = repo then (k, v) :: t else (k, b) :: setSel t repo v

/-- The select-all / select-none loops of `updateRepoList`. -/
def setSelAll (sel : List (String × Bool)) (repos : List String) (v : Bool) :
    List (String × Bool) :=
  repos.foldl (fun s r => setSel s r v) sel

/-- Embeds `m.exportFormats` as initialized in `NewModel`. -/
def exportFormats : List String :=
  ["text", "markdown", "json"]

/-- The keys of `entity.DateRangePresets`, in order. -/
def datePresetKeys : List String :=
  ["today", "yesterday", "week", "month", "custom"]

/-- External collaborators of the update loop, kept abstract: the two
Bubble Tea text inputs, date validation and preset resolution (both
clock-dependent), export content generation, the clipboard, and file
output. -/
structure Ext where
  dateInputUpdate : String → Msg → String
  filterInputUpdate : String → Msg → String
  validateCustomDate : String → Option String
  getDateRange : String → String × String
  generateContent : Model → String → Except String String
  copyToClipboard : String → Option String
  generateFilename : String → String → String
  saveToFile : String → String → Option String

/-- Embeds `getDisplayRepos`: the filtered list when a filter is active, else the
full repo list. -/
def getDisplayRepos (m : Model) : List String :=
  if m.filterActive then m.filteredRepos else m.repoList

/-- The synchronous state change of `loadCommits` (the issued fetch command
reports back later as a `commitsLoaded` message). -/
def loadCommits (m : Model) : Model :=
  { m with loading := true, screen := .loading, err := none }

/-- Embeds `Model.updateDateRange`. Quit keys leave the state unchanged (the
program exits). -/
def updateDateRange (ext : Ext) (m : Model) (msg : Msg) : Model :=
  match msg with
  | .key k =>
    if k = "q" || k = "esc" then m
    else if k = "j" || k = "down" then
      if m.dateRangeIdx < datePresetKeys.length - 1 then
        { m with dateRangeIdx := m.dateRangeIdx + 1 }
      else m
    else if k = "k" || k = "up" then
      if m.dateRangeIdx > 0 then { m with dateRangeIdx := m.dateRangeIdx - 1 } else m
    else if k = "enter" then
      let preset := datePresetKeys.getD m.dateRangeIdx ""
      if preset = "custom" then { m with err := none, screen := .dateSelect }
      else
        let dr := ext.getDateRange preset
        loadCommits { m with startDate := dr.1, endDate := dr.2 }
    else m
  | _ => m

/-- Embeds `Model.updateDateSelect`. -/
def updateDateSelect (ext : Ext) (m : Model) (msg : Msg) : Model :=
  match msg with
  | .key k =>
    if k = "enter" then
      match ext.validateCustomDate m.dateInputValue with
      | some e => { m with err := some e }
      | none =>
        loadCommits
          { m with startDate := m.dateInputValue, endDate := m.dateInputValue
                   err := none }
    else if k = "esc" then { m with err := none, screen := .dateRange }
    else { m with dateInputValue := ext.dateInputUpdate m.dateInputValue msg }
  | _ => { m with dateInputValue := ext.dateInputUpdate m.dateInputValue msg }

/-- Embeds `Model.updateRepoFilter`. -/
def updateRepoFilter (ext : Ext) (m : Model) (msg : Msg) : Model :=
  match msg with
  | .key k =>
    if k = "enter" then
      let pattern := m.filterInputValue
      let m :=
        if pattern = "" then { m with filterActive := false, filteredRepos := m.repoList }
        else
          { m with filterActive := true
                   filteredRepos := filterReposByPattern m.repoList pattern }
      { m with cursor := 0, screen := .repoList }
    else if k = "esc" then
      { m with filterActive := false, filterInputValue := ""
               filteredRepos := m.repoList, screen := .repoList }
    else { m with filterInputValue := ext.filterInputUpdate m.filterInputValue msg }
  | _ => { m with filterInputValue := ext.filterInputUpdate m.filterInputValue msg }

/-- Embeds `Model.updateRepoList`. -/
def updateRepoList (m : Model) (msg : Msg) : Model :=
  let repos := getDisplayRepos m
  match msg with
  | .key k =>
    if k = "q" then m
    else if k = "enter" then
      { m with screen := .summary
               stats := some (calculateStatistics m.commits fun r => lookupSel m.selected r) }
    else if k = " " then
      if repos.length > 0 then
        let currentRepo := repos.getD m.cursor ""
        { m with selected := setSel m.selected currentRepo
                   (!lookupSel m.selected currentRepo) }
      else m
    else if k = "j" || k = "down" then
      if m.cursor < repos.length - 1 then { m with cursor := m.cursor + 1 } else m
    else if k = "k" || k = "up" then
      if m.cursor > 0 then { m with cursor := m.cursor - 1 } else m
    else if k = "a" then { m with selected := setSelAll m.selected repos true }
    else if k = "n" then { m with selected := setSelAll m.selected repos false }
    else if k = "f" || k = "/" then { m with screen := .repoFilter }
    else if k = "s" then
      { m with stats := some (calculateStatistics m.commits fun r => lookupSel m.selected r)
               screen := .stats }
    else if k = "r" then { m with err := none, screen := .dateRange, cursor := 0 }
    else m
  | _ => m

/-- Embeds `Model.updateSummary`. -/
def updateSummary (ext : Ext) (m : Model) (msg : Msg) : Model :=
  match msg with
  | .key k =>
    if k = "q" then m
    else if k = "esc" || k = "b" then { m with screen := .repoList }
    else if k = "c" then
      match ext.generateContent m "text" with
      | .error e => { m with message := "Failed to generate content: " ++ e }
      | .ok content =>
        match ext.copyToClipboard content with
        | some e => { m with message := "Failed to copy: " ++ e }
        | none => { m with message := "Copied to clipboard!" }
    else if k = "e" then { m with screen := .export, exportFormatIdx := 0 }
    else if k = "s" then
      { m with stats := some (calculateStatistics m.commits fun r => lookupSel m.selected r)
               screen := .stats }
    else m
  | _ => m

/-- Embeds `Model.updateExport`. -/
def updateExport (ext : Ext) (m : Model) (msg : Msg) : Model :=
  match msg with
  | .key k =>
    if k = "q" then m
    else if k = "esc" || k = "b" then { m with screen := .summary }
    else if k = "j" || k = "down" then
      if m.exportFormatIdx < exportFormats.length - 1 then
        { m with exportFormatIdx := m.exportFormatIdx + 1 }
      else m
    else if k = "k" || k = "up" then
      if m.exportFormatIdx > 0 then { m with exportFormatIdx := m.exportFormatIdx - 1 }
      else m
    else if k = "enter" then
      let format := exportFormats.getD m.exportFormatIdx ""
      match ext.generateContent m format with
      | .error e =>
        { m with message := "Failed to generate content: " ++ e, screen := .summary }
      | .ok content =>
        let filename := ext.generateFilename m.startDate format
        let m :=
          match ext.saveToFile content filename with
          | some e => { m with message := "Failed to save: " ++ e }
          | none => { m with message := "Saved to " ++ filename }
        { m with screen := .summary }
    else if k = "c" then
      let format := exportFormats.getD m.exportFormatIdx ""
      match ext.generateContent m format with
      | .error e => { m with message := "Failed to generate content: " ++ e }
      | .ok content =>
        match ext.copyToClipboard content with
        | some e => { m with message := "Failed to copy: " ++ e }
        | none => { m with message := "Copied to clipboard!" }
    else m
  | _ => m

/-- Embeds `Model.updateStats`. -/
def updateStats (m : Model) (msg : Msg) : Model :=
  match msg with
  | .key k =>
    if k = "q" then m
    else if k = "esc" || k = "b" then { m with screen := .repoList }
    else m
  | _ => m

/-- Embeds `Model.updateLoading`: a completion event installs the fetched data,
recomputes the filter from the filter input's value, stores the event's
error, and shows the repo list with the cursor reset; a spinner tick only
animates; Escape cancels back to date-range selection. -/
def updateLoading (m : Model) (msg : Msg) : Model :=
  match msg with
  | .commitsLoaded commits repoList warning err =>
    let m := { m with loading := false, commits := commits
                      repoList := repoList, warning := warning }
    let m :=
      if m.filterInputValue ≠ "" then
        { m with filterActive := true
                 filteredRepos := filterReposByPattern repoList m.filterInputValue }
      else { m with filterActive := false, filteredRepos := repoList }
    { m with err := err, screen := .repoList, cursor := 0 }
  | .spinnerTick => m
  | .key k =>
    if k = "q" || k = "ctrl+c" then m
    else if k = "esc" then { m with loading := false, err := none, screen := .dateRange }
    else m

/-- The per-screen dispatch of `Model.Update`. -/
def dispatch (ext : Ext) (m : Model) (msg : Msg) : Model :=
  match m.screen with
  | .dateRange => updateDateRange ext m msg
  | .dateSelect => updateDateSelect ext m msg
  | .repoFilter => updateRepoFilter ext m msg
  | .repoList => updateRepoList m msg
  | .summary => updateSummary ext m msg
  | .export => updateExport ext m msg
  | .stats => updateStats m msg
  | .loading => updateLoading m msg

/-- Embeds `Model.Update`: Ctrl+C quits immediately; any other key press clears
the transient message before the per-screen dispatch; non-key events are
dispatched as they are. -/
def update (ext : Ext) (m : Model) (msg : Msg) : Model :=
  match msg with
  | .key k => if k = "ctrl+c" then m else dispatch ext { m with message := "" } msg
  | _ => dispatch ext m msg

/-- A concrete instantiation of the external collaborators, used to
evaluate the update loop on concrete sessions. -/
def extFixed : Ext :=
  { dateInputUpdate := fun v _ => v
    filterInputUpdate := fun v _ => v
    validateCustomDate := fun _ => none
    getDateRange := fun _ => ("", "")
    generateContent := fun _ _ => .ok ""
    copyToClipboard := fun _ => none
    generateFilename := fun _ _ => ""
    saveToFile := fun _ _ => none }

/-- A concrete base session used by the concrete evaluations. -/
def baseModel : Model :=
  { commits := [], repoList := [], filteredRepos := [], cursor := 0
    selected := [], screen := .dateRange, dateInputValue := ""
    filterInputValue := "", filterActive := false, dateRangeIdx := 0
    startDate := "", endDate := "", exportFormatIdx := 0, stats := none
    err := none, message := "", warning := "", loading := false }

theorem statsStep_totalCommits (selected : String → Bool) (s : Statistics)
    (kv : String × List Commit) :
    (statsStep selected s kv).totalCommits =
      if selected kv.1 then s.totalCommits + kv.2.length else s.totalCommits := by
  unfold statsStep
  rcases h : selected kv.1 <;> simp [h] <;> split <;> rfl

theorem statsStep_totalRepositories (selected : String → Bool) (s : Statistics)
    (kv : String × List Commit) :
    (statsStep selected s kv).totalRepositories =
      if selected kv.1 then s.totalRepositories + 1 else s.totalRepositories := by
  unfold statsStep
  rcases h : selected kv.1 <;> simp [h] <;> split <;> rfl

theorem statsStep_commitsPerRepo (selected : String → Bool) (s : Statistics)
    (kv : String × List Commit) :
    (statsStep selected s kv).commitsPerRepo =
      if selected kv.1 then s.commitsPerRepo ++ [(kv.1, kv.2.length)]
      else s.commitsPerRepo := by
  unfold statsStep
  rcases h : selected kv.1 <;> simp [h] <;> split <;> rfl

theorem statsStep_maxCommits (selected : String → Bool) (s : Statistics)
    (kv : String × List Commit) :
    (statsStep selected s kv).maxCommits =
      if selected kv.1 then max s.maxCommits kv.2.length else s.maxCommits := by
  unfold statsStep
  rcases h : selected kv.1 <;> simp [h]
  split
  · next hlt => simp [Nat.max_eq_right (Nat.le_of_lt hlt)]
  · next hge => simp [Nat.max_eq_left (Nat.le_of_not_lt hge)]

theorem foldl_stats_totalCommits (selected : String → Bool)
    (l : List (String × List Commit)) (s : Statistics) :
    (l.foldl (statsStep selected) s).totalCommits =
      s.totalCommits + (selectedCounts l selected).sum := by
  induction l generalizing s with
  | nil => simp [selectedCounts]
  | cons kv t ih =>
    rcases h : selected kv.1 with hf | ht <;>
      simp [List.foldl_cons, ih, statsStep_totalCommits, h, selectedCounts,
        List.filter_cons] <;> omega

theorem foldl_stats_totalRepositories (selected : String → Bool)
    (l : List (String × List Commit)) (s : Statistics) :
    (l.foldl (statsStep selected) s).totalRepositories =
      s.totalRepositories + (l.filter fun kv => selected kv.1).length := by
  induction l generalizing s with
  | nil => simp
  | cons kv t ih =>
    rcases h : selected kv.1 with hf | ht <;>
      simp [List.foldl_cons, ih, statsStep_totalRepositories, h,
        List.filter_cons] <;> omega

theorem foldl_stats_commitsPerRepo (selected : String → Bool)
    (l : List (String × List Commit)) (s : Statistics) :
    (l.foldl (statsStep selected) s).commitsPerRepo =
      s.commitsPerRepo ++
        ((l.filter fun kv => selected kv.1).map fun kv => (kv.1, kv.2.length)) := by
  induction l generalizing s with
  | nil => simp
  | cons kv t ih =>
    rcases h : selected kv.1 with hf | ht <;>
      simp [List.foldl_cons, ih, statsStep_commitsPerRepo, h, List.filter_cons]

theorem foldl_stats_maxCommits (selected : String → Bool)
    (l : List (String × List Commit)) (s : Statistics) :
    (l.foldl (statsStep selected) s).maxCommits =
      (selectedCounts l selected).foldl max s.maxCommits := by
  induction l generalizing s with
  | nil => simp [selectedCounts]
  | cons kv t ih =>
    rcases h : selected kv.1 with hf | ht <;>
      simp [List.foldl_cons, ih, statsStep_maxCommits, h, selectedCounts,
        List.filter_cons]

theorem calculateStatistics_totalCommits (commits : List (String × List Commit))
    (selected : String → Bool) :
    (calculateStatistics commits selected).totalCommits =
      (selectedCounts commits selected).sum := by
  simp [calculateStatistics, foldl_stats_totalCommits, statsInit]

theorem calculateStatistics_totalRepositories
    (commits : List (String × List Commit)) (selected : String → Bool) :
    (calculateStatistics commits selected).totalRepositories =
      (commits.filter fun kv => selected kv.1).length := by
  simp [calculateStatistics, foldl_stats_totalRepositories, statsInit]

theorem calculateStatistics_commitsPerRepo
    (commits : List (String × List Commit)) (selected : String → Bool) :
    (calculateStatistics commits selected).commitsPerRepo =
      (commits.filter fun kv => selected kv.1).map fun kv => (kv.1, kv.2.length) := by
  simp [calculateStatistics, foldl_stats_commitsPerRepo, statsInit]

theorem calculateStatistics_maxCommits (commits : List (String × List Commit))
    (selected : String → Bool) :
    (calculateStatistics commits selected).maxCommits =
      (selectedCounts commits selected).foldl max 0 := by
  simp [calculateStatistics, foldl_stats_maxCommits, statsInit]

theorem foldl_max_perm {l₁ l₂ : List Nat} (h : l₁.Perm l₂) (a : Nat) :
    l₁.foldl max a = l₂.foldl max a := by
  induction h generalizing a with
  | nil => rfl
  | cons x _ ih => simp only [List.foldl_cons]; exact ih _
  | swap x y l => simp only [List.foldl_cons]; rw [sup_right_comm]
  | trans _ _ ih₁ ih₂ => exact (ih₁ a).trans (ih₂ a)

theorem statsStep_invariant (selected : String → Bool) (s : Statistics)
    (kv : String × List Commit)
    (hle : ∀ e ∈ s.commitsPerRepo, e.2 ≤ s.maxCommits)
    (hfind : 0 < s.maxCommits →
      s.commitsPerRepo.find? (fun e => e.2 == s.maxCommits) =
        some (s.mostActiveRepo, s.maxCommits)) :
    (∀ e ∈ (statsStep selected s kv).commitsPerRepo,
        e.2 ≤ (statsStep selected s kv).maxCommits) ∧
    (0 < (statsStep selected s kv).maxCommits →
      (statsStep selected s kv).commitsPerRepo.find?
          (fun e => e.2 == (statsStep selected s kv).maxCommits) =
        some ((statsStep selected s kv).mostActiveRepo,
          (statsStep selected s kv).maxCommits)) := by
  unfold statsStep
  rcases hsel : selected kv.1
  · simp only [hsel, Bool.not_false, if_true]
    exact ⟨hle, hfind⟩
  simp only [hsel, Bool.not_true, Bool.false_eq_true, if_false]
  split
  · next hgt =>
    constructor
    · intro e he
      rcases List.mem_append.mp he with hmem | hmem
      · exact Nat.le_of_lt (Nat.lt_of_le_of_lt (hle e hmem) hgt)
      · simp only [List.mem_singleton] at hmem
        simp [hmem]
    · intro _
      simp only [List.find?_append]
      have hnone : s.commitsPerRepo.find? (fun e => e.2 == kv.2.length) = none := by
        rw [List.find?_eq_none]
        intro e he
        have := hle e he
        simp only [beq_iff_eq]
        omega
      rw [hnone]
      simp
  · next hngt =>
    constructor
    · intro e he
      rcases List.mem_append.mp he with hmem | hmem
      · exact hle e hmem
      · simp only [List.mem_singleton] at hmem
        simp only [hmem]
        omega
    · intro hpos
      simp only [List.find?_append, hfind hpos]
      rfl

theorem foldl_stats_invariant (selected : String → Bool)
    (l : List (String × List Commit)) (s : Statistics)
    (hle : ∀ e ∈ s.commitsPerRepo, e.2 ≤ s.maxCommits)
    (hfind : 0 < s.maxCommits →
      s.commitsPerRepo.find? (fun e => e.2 == s.maxCommits) =
        some (s.mostActiveRepo, s.maxCommits)) :
    (∀ e ∈ (l.foldl (statsStep selected) s).commitsPerRepo,
        e.2 ≤ (l.foldl (statsStep selected) s).maxCommits) ∧
    (0 < (l.foldl (statsStep selected) s).maxCommits →
      (l.foldl (statsStep selected) s).commitsPerRepo.find?
          (fun e => e.2 == (l.foldl (statsStep selected) s).maxCommits) =
        some ((l.foldl (statsStep selected) s).mostActiveRepo,
          (l.foldl (statsStep selected) s).maxCommits)) := by
  induction l generalizing s with
  | nil => exact ⟨hle, hfind⟩
  | cons kv t ih =>
    have hstep := statsStep_invariant selected s kv hle hfind
    exact ih (statsStep selected s kv) hstep.1 hstep.2

theorem calculateStatistics_first_max (l : List (String × List Commit))
    (sel : String → Bool) (h : 0 < (calculateStatistics l sel).maxCommits) :
    (calculateStatistics l sel).commitsPerRepo.find?
        (fun e => e.2 == (calculateStatistics l sel).maxCommits) =
      some ((calculateStatistics l sel).mostActiveRepo,
        (calculateStatistics l sel).maxCommits) := by
  have := foldl_stats_invariant sel l statsInit (by simp [statsInit]) (by simp [statsInit])
  exact this.2 h

/-- C4: for every commits map and every selection, `TotalCommits` is the
sum of the values of `CommitsPerRepo` and `TotalRepositories` is the
number of its keys; and on the CommitSet `A ↦ 3 commits, B ↦ 2 commits`
with both repos selected (in either map iteration order), the result is
`TotalCommits = 5, TotalRepositories = 2, MostActiveRepo = "A",
MaxCommits = 3`. -/
theorem C4_statistics_totals :
    (∀ (commits : List (String × List Commit)) (selected : String → Bool),
      (calculateStatistics commits selected).totalCommits =
        ((calculateStatistics commits selected).commitsPerRepo.map Prod.snd).sum ∧
      (calculateStatistics commits selected).totalRepositories =
        (calculateStatistics commits selected).commitsPerRepo.length) ∧
    calculateStatistics
        [("A", [⟨"A", "m1"⟩, ⟨"A", "m2"⟩, ⟨"A", "m3"⟩]), ("B", [⟨"B", "m1"⟩, ⟨"B", "m2"⟩])]
        (fun _ => true) =
      ⟨5, 2, [("A", 3), ("B", 2)], "A", 3⟩ ∧
    calculateStatistics
        [("B", [⟨"B", "m1"⟩, ⟨"B", "m2"⟩]), ("A", [⟨"A", "m1"⟩, ⟨"A", "m2"⟩, ⟨"A", "m3"⟩])]
        (fun _ => true) =
      ⟨5, 2, [("B", 2), ("A", 3)], "A", 3⟩ := by
  refine ⟨fun commits selected => ⟨?_, ?_⟩, by decide, by decide⟩
  · rw [calculateStatistics_totalCommits, calculateStatistics_commitsPerRepo]
    simp [selectedCounts, List.map_map, Function.comp_def]
  · rw [calculateStatistics_totalRepositories, calculateStatistics_commitsPerRepo]
    simp

/-- C1 is refuted: `CalculateStatistics` ranges over the Go map `commits`,
whose iteration order is unspecified, not over the sorted `repoList`. The
two association lists below represent the same map (they are permutations
of each other), the selection is the same, yet `MostActiveRepo` differs
with the iteration order, so the result is not a deterministic function of
`(commits, selected)` and a tie is not won by the first repo in ascending
sorted order. -/
theorem C1_counterexample :
    ([("a", [⟨"a", "m"⟩]), ("b", [⟨"b", "m"⟩])] : List (String × List Commit)).Perm
        [("b", [⟨"b", "m"⟩]), ("a", [⟨"a", "m"⟩])] ∧
    (calculateStatistics [("a", [⟨"a", "m"⟩]), ("b", [⟨"b", "m"⟩])]
        fun _ => true).mostActiveRepo = "a" ∧
    (calculateStatistics [("b", [⟨"b", "m"⟩]), ("a", [⟨"a", "m"⟩])]
        fun _ => true).mostActiveRepo = "b" :=
  ⟨by decide, by decide, by decide⟩

/-- C1 (amended): `CalculateStatistics` iterates the Go map `commits` in an
unspecified order. `TotalCommits`, `TotalRepositories`, `MaxCommits` and
`CommitsPerRepo` (as a map) are deterministic functions of
`(commits, selected)`, independent of the iteration order; the comparison
is strictly-greater, so `MostActiveRepo` is the first repo in iteration
order (not sorted order) whose count reaches the maximum — on ties it
depends on the unspecified order. -/
theorem C1_statistics_order (l₁ l₂ : List (String × List Commit))
    (sel : String → Bool) (h : l₁.Perm l₂) :
    ((calculateStatistics l₁ sel).totalCommits =
        (calculateStatistics l₂ sel).totalCommits ∧
      (calculateStatistics l₁ sel).totalRepositories =
        (calculateStatistics l₂ sel).totalRepositories ∧
      (calculateStatistics l₁ sel).maxCommits =
        (calculateStatistics l₂ sel).maxCommits ∧
      (calculateStatistics l₁ sel).commitsPerRepo.Perm
        (calculateStatistics l₂ sel).commitsPerRepo) ∧
    (0 < (calculateStatistics l₁ sel).maxCommits →
      (calculateStatistics l₁ sel).commitsPerRepo.find?
          (fun e => e.2 == (calculateStatistics l₁ sel).maxCommits) =
        some ((calculateStatistics l₁ sel).mostActiveRepo,
          (calculateStatistics l₁ sel).maxCommits)) := by
  have hf : (l₁.filter fun kv => sel kv.1).Perm (l₂.filter fun kv => sel kv.1) :=
    h.filter _
  have hm : (selectedCounts l₁ sel).Perm (selectedCounts l₂ sel) := hf.map _
  refine ⟨⟨?_, ?_, ?_, ?_⟩, calculateStatistics_first_max l₁ sel⟩
  · rw [calculateStatistics_totalCommits, calculateStatistics_totalCommits]
    exact hm.sum_eq
  · rw [calculateStatistics_totalRepositories, calculateStatistics_totalRepositories]
    exact hf.length_eq
  · rw [calculateStatistics_maxCommits, calculateStatistics_maxCommits]
    exact foldl_max_perm hm 0
  · rw [calculateStatistics_commitsPerRepo, calculateStatistics_commitsPerRepo]
    exact hf.map _

/-- Witness for `C1_statistics_order` at a concrete tie between two repos
in the two iteration orders of the same map. -/
theorem C1_statistics_order_witness :
    ((calculateStatistics [("a", [⟨"a", "m"⟩]), ("b", [⟨"b", "m"⟩, ⟨"b", "n"⟩])]
          fun _ => true).totalCommits =
        (calculateStatistics [("b", [⟨"b", "m"⟩, ⟨"b", "n"⟩]), ("a", [⟨"a", "m"⟩])]
          fun _ => true).totalCommits ∧
      (calculateStatistics [("a", [⟨"a", "m"⟩]), ("b", [⟨"b", "m"⟩, ⟨"b", "n"⟩])]
          fun _ => true).totalRepositories =
        (calculateStatistics [("b", [⟨"b", "m"⟩, ⟨"b", "n"⟩]), ("a", [⟨"a", "m"⟩])]
          fun _ => true).totalRepositories ∧
      (calculateStatistics [("a", [⟨"a", "m"⟩]), ("b", [⟨"b", "m"⟩, ⟨"b", "n"⟩])]
          fun _ => true).maxCommits =
        (calculateStatistics [("b", [⟨"b", "m"⟩, ⟨"b", "n"⟩]), ("a", [⟨"a", "m"⟩])]
          fun _ => true).maxCommits ∧
      (calculateStatistics [("a", [⟨"a", "m"⟩]), ("b", [⟨"b", "m"⟩, ⟨"b", "n"⟩])]
          fun _ => true).commitsPerRepo.Perm
        (calculateStatistics [("b", [⟨"b", "m"⟩, ⟨"b", "n"⟩]), ("a", [⟨"a", "m"⟩])]
          fun _ => true).commitsPerRepo) ∧
    (0 < (calculateStatistics [("a", [⟨"a", "m"⟩]), ("b", [⟨"b", "m"⟩, ⟨"b", "n"⟩])]
          fun _ => true).maxCommits →
      (calculateStatistics [("a", [⟨"a", "m"⟩]), ("b", [⟨"b", "m"⟩, ⟨"b", "n"⟩])]
          fun _ => true).commitsPerRepo.find?
          (fun e => e.2 ==
            (calculateStatistics [("a", [⟨"a", "m"⟩]), ("b", [⟨"b", "m"⟩, ⟨"b", "n"⟩])]
              fun _ => true).maxCommits) =
        some ((calculateStatistics [("a", [⟨"a", "m"⟩]), ("b", [⟨"b", "m"⟩, ⟨"b", "n"⟩])]
            fun _ => true).mostActiveRepo,
          (calculateStatistics [("a", [⟨"a", "m"⟩]), ("b", [⟨"b", "m"⟩, ⟨"b", "n"⟩])]
            fun _ => true).maxCommits)) :=
  C1_statistics_order
    [("a", [⟨"a", "m"⟩]), ("b", [⟨"b", "m"⟩, ⟨"b", "n"⟩])]
    [("b", [⟨"b", "m"⟩, ⟨"b", "n"⟩]), ("a", [⟨"a", "m"⟩])]
    (fun _ => true) (by decide)

theorem char_toNat_ofNat_valid (n : Nat) (h : n.isValidChar) :
    (Char.ofNat n).toNat = n := by
  unfold Char.ofNat
  rw [dif_pos h]
  rfl

theorem toLower_idem (c : Char) : c.toLower.toLower = c.toLower := by
  by_cases h : c.toNat ≥ 65 ∧ c.toNat ≤ 90
  · have h1 : c.toLower = Char.ofNat (c.toNat + 32) := by
      simp only [Char.toLower]
      rw [if_pos h]
    have h2 : c.toLower.toNat = c.toNat + 32 := by
      rw [h1]
      exact char_toNat_ofNat_valid _ (Or.inl (by omega))
    conv_lhs => rw [Char.toLower]
    rw [if_neg (by omega)]
  · have h1 : c.toLower = c := by
      simp only [Char.toLower]
      rw [if_neg h]
    rw [h1, h1]

theorem toLowerStr_idem (s : String) : toLowerStr (toLowerStr s) = toLowerStr s := by
  simp only [toLowerStr, List.map_map]
  congr 1
  exact List.map_congr_left fun c _ => toLower_idem c

theorem mem_starSuffixes (cs t : List Char) :
    t ∈ starSuffixes cs ↔ ∃ s, cs = s ++ t ∧ ∀ c ∈ s, ¬c = '\n' := by
  induction cs with
  | nil =>
    simp only [starSuffixes, List.mem_singleton]
    constructor
    · rintro rfl
      exact ⟨[], by simp⟩
    · rintro ⟨s, hs, -⟩
      cases s with
      | nil => simpa using hs.symm
      | cons a s => simp at hs
  | cons c cs ih =>
    simp only [starSuffixes]
    by_cases hc : c = '\n'
    · subst hc
      rw [if_pos rfl]
      simp only [List.mem_singleton]
      constructor
      · rintro rfl
        exact ⟨[], by simp⟩
      · rintro ⟨s, hs, hall⟩
        cases s with
        | nil => simpa using hs.symm
        | cons a s =>
          simp only [List.cons_append, List.cons.injEq] at hs
          exact absurd hs.1.symm (hall a (List.mem_cons_self a s))
    · rw [if_neg hc, List.mem_cons]
      constructor
      · rintro (rfl | hmem)
        · exact ⟨[], by simp⟩
        · obtain ⟨s, rfl, hall⟩ := ih.mp hmem
          refine ⟨c :: s, by simp, ?_⟩
          rintro x hx
          rcases List.mem_cons.mp hx with rfl | hx
          · exact hc
          · exact hall x hx
      · rintro ⟨s, hs, hall⟩
        cases s with
        | nil =>
          left
          simpa using hs.symm
        | cons a s =>
          right
          simp only [List.cons_append, List.cons.injEq] at hs
          obtain ⟨rfl, hrest⟩ := hs
          exact ih.mpr ⟨s, hrest, fun x hx => hall x (List.mem_cons_of_mem _ hx)⟩

theorem globMatch_star_iff (ps : List GlobTok) (cs : List Char) :
    globMatch (.star :: ps) cs = true ↔
      ∃ s t, cs = s ++ t ∧ (∀ c ∈ s, ¬c = '\n') ∧ globMatch ps t = true := by
  simp only [globMatch, List.any_eq_true]
  constructor
  · rintro ⟨t, hmem, hm⟩
    obtain ⟨s, rfl, hall⟩ := (mem_starSuffixes _ _).mp hmem
    exact ⟨s, t, rfl, hall, hm⟩
  · rintro ⟨s, t, rfl, hall, hm⟩
    exact ⟨t, (mem_starSuffixes _ _).mpr ⟨s, rfl, hall⟩, hm⟩

theorem globMatch_anyChar_iff (ps : List GlobTok) (cs : List Char) :
    globMatch (.anyChar :: ps) cs = true ↔
      ∃ c t, cs = c :: t ∧ ¬c = '\n' ∧ globMatch ps t = true := by
  cases cs with
  | nil => simp [globMatch]
  | cons c t =>
    simp only [globMatch, Bool.and_eq_true, bne_iff_ne, ne_eq, List.cons.injEq]
    constructor
    · rintro ⟨h1, h2⟩
      exact ⟨c, t, ⟨rfl, rfl⟩, h1, h2⟩
    · rintro ⟨c1, t1, ⟨rfl, rfl⟩, h1, h2⟩
      exact ⟨h1, h2⟩

/-- C5 (amended): `matchPattern` compares pattern and name
case-insensitively; without glob metacharacters the match is substring
containment; with them it is the anchored matcher where `*` matches any
newline-free sequence (path separators included) and `?` matches exactly
one non-newline character; the three concrete examples of the spec hold. -/
theorem C5_matchPattern :
    (∀ p n, matchPattern p n = matchPattern (toLowerStr p) (toLowerStr n)) ∧
    (∀ p n, containsWildcard (toLowerStr p) = false →
      (matchPattern p n = true ↔ (toLowerStr p).data <:+: (toLowerStr n).data)) ∧
    (∀ p n, containsWildcard (toLowerStr p) = true →
      matchPattern p n =
        globMatch (compileGlob (toLowerStr p).data) (toLowerStr n).data) ∧
    (∀ ps cs, globMatch (.star :: ps) cs = true ↔
      ∃ s t, cs = s ++ t ∧ (∀ c ∈ s, ¬c = '\n') ∧ globMatch ps t = true) ∧
    (∀ ps cs, globMatch (.anyChar :: ps) cs = true ↔
      ∃ c t, cs = c :: t ∧ ¬c = '\n' ∧ globMatch ps t = true) ∧
    matchPattern "*project*" "org/my-project" = true ∧
    matchPattern "Org/*" "org/repo" = true ∧
    matchPattern "abc" "xabcx" = true := by
  refine ⟨?_, ?_, ?_, globMatch_star_iff, globMatch_anyChar_iff,
    by decide, by decide, by decide⟩
  · intro p n
    simp only [matchPattern, toLowerStr_idem]
  · intro p n h
    simp [matchPattern, h, containsSubstring]
  · intro p n h
    simp [matchPattern, h]

/-- C5 is refuted on a newline: by the claim's words `*` matches any
sequence (spec-words matcher `globMatchSpec` accepts), but the code's RE2
`.` never matches a newline, so `matchPattern` rejects `"a\nb"` against
`"a*b"`. -/
theorem C5_counterexample :
    globMatchSpec (compileGlob (toLowerStr "a*b").data) (toLowerStr "a\nb").data =
        true ∧
    matchPattern "a*b" "a\nb" = false :=
  ⟨by decide, by decide⟩

/-- Witness for `C5_matchPattern` at concrete inputs. -/
theorem C5_matchPattern_witness :
    (matchPattern "abc" "xabcx" = true ↔
      (toLowerStr "abc").data <:+: (toLowerStr "xabcx").data) ∧
    matchPattern "Org/*" "org/repo" =
      globMatch (compileGlob (toLowerStr "Org/*").data) (toLowerStr "org/repo").data :=
  ⟨C5_matchPattern.2.1 "abc" "xabcx" (by decide),
   C5_matchPattern.2.2.1 "Org/*" "org/repo" (by decide)⟩

theorem lookup_removeFile (store : Store) (key : String) :
    (removeFile store key).lookup key = none := by
  induction store with
  | nil => rfl
  | cons kv t ih =>
    simp only [removeFile, List.filter_cons] at ih ⊢
    rcases h : (kv.1 != key) with - | -
    · rw [if_neg (by simp [h])]
      exact ih
    · rw [if_pos rfl]
      have hne : (key == kv.1) = false := by
        rw [beq_eq_false_iff_ne]
        intro heq
        rw [← heq] at h
        simp at h
      simp only [List.lookup, hne]
      exact ih

theorem lookup_writeFile (store : Store) (key : String) (f : CacheFile) :
    (writeFile store key f).lookup key = some f := by
  simp [writeFile, List.lookup]

/-- C6: an entry is expired iff `now - storedAt > ttl` and is never
returned: an expired lookup is reported as a miss and the file deleted;
concretely, an entry written with `ttl = 1` second is a clean miss (and
deleted) when read 2 seconds later, and a hit returning the stored payload
when read immediately. -/
theorem C6_cache_expiry :
    (∀ now ts ttl : Int, isExpired now ts ttl = true ↔ now - ts > ttl) ∧
    (∀ (store : Store) (key : String) (now : Int) (payload : Payload) (ts ttl : Int),
      store.lookup key = some (.entry payload ts ttl) → now - ts > ttl →
      (fileGet store key now).1.found = false ∧
      ((fileGet store key now).2).lookup key = none) ∧
    (∀ (store : Store) (key : String) (d : CommitData) (t : Int),
      (fileGet (fileSet store key d 1 t) key (t + 2)).1 = ⟨none, false, none⟩ ∧
      ((fileGet (fileSet store key d 1 t) key (t + 2)).2).lookup key = none ∧
      (fileGet (fileSet store key d 1 t) key t).1 = ⟨some d, true, none⟩) := by
  refine ⟨?_, ?_, ?_⟩
  · intro now ts ttl
    simp [isExpired]
  · intro store key now payload ts ttl hl hexp
    simp only [fileGet, hl]
    rw [if_pos (show isExpired now ts ttl = true by
      simp only [isExpired, decide_eq_true_eq]; omega)]
    exact ⟨rfl, lookup_removeFile _ key⟩
  · intro store key d t
    have hw := lookup_writeFile store key (.entry (.ok d) t 1)
    have hexp : isExpired (t + 2) t 1 = true := by
      simp only [isExpired, decide_eq_true_eq]
      omega
    have hfresh : ¬isExpired t t 1 = true := by
      simp only [isExpired, decide_eq_true_eq]
      omega
    refine ⟨?_, ?_, ?_⟩
    · simp only [fileGet, fileSet, hw]
      rw [if_pos hexp]
    · simp only [fileGet, fileSet, hw]
      rw [if_pos hexp]
      exact lookup_removeFile _ key
    · simp only [fileGet, fileSet, hw]
      rw [if_neg hfresh]

/-- Witness for `C6_cache_expiry`: the general never-returned clause at a
concrete expired entry. -/
theorem C6_cache_expiry_witness :
    (fileGet [("k", CacheFile.entry (.ok ⟨[], [], ""⟩) 0 1)] "k" 5).1.found = false ∧
    ((fileGet [("k", CacheFile.entry (.ok ⟨[], [], ""⟩) 0 1)] "k" 5).2).lookup "k" =
      none :=
  C6_cache_expiry.2.1 [("k", CacheFile.entry (.ok ⟨[], [], ""⟩) 0 1)] "k" 5
    (.ok ⟨[], [], ""⟩) 0 1 (by decide) (by decide)

theorem endsWithJson_append (s : String) : endsWithJson (s ++ ".json") = true := by
  simp only [endsWithJson, String.data_append, List.isSuffixOf_iff_suffix]
  exact List.suffix_append s.data ".json".data

theorem lookup_invalidateStore (store : Store) (key : String)
    (h : endsWithJson key = true) :
    (invalidateStore store).lookup key = none := by
  induction store with
  | nil => rfl
  | cons kv t ih =>
    simp only [invalidateStore, List.filter_cons] at ih ⊢
    rcases hk : endsWithJson kv.1 with - | -
    · rw [if_pos (by simp [hk])]
      have hne : (key == kv.1) = false := by
        rw [beq_eq_false_iff_ne]
        intro heq
        rw [← heq, h] at hk
        simp at hk
      simp only [List.lookup, hne]
      exact ih
    · rw [if_neg (by simp [hk])]
      exact ih

/-- C7: `Invalidate(user)` is not selective — it removes every `*.json`
file of the cache directory, and every key `GetCacheKey` ever produces
ends in `.json`, so after invalidation a read for any user and any date
range (indeed for any purpose and parameters) is a clean miss. -/
theorem C7_invalidate_global (hash : String → String) (store : Store)
    (author dateRange : String) (now : Int) :
    (getCommits hash (invalidateStore store) author dateRange now).1 =
      ⟨none, false, none⟩ ∧
    (∀ (purpose : String) (params : List String),
      (invalidateStore store).lookup (getCacheKey hash purpose params) = none) := by
  have hkey : ∀ (purpose : String) (params : List String),
      (invalidateStore store).lookup (getCacheKey hash purpose params) = none := by
    intro purpose params
    exact lookup_invalidateStore store _ (endsWithJson_append _)
  refine ⟨?_, hkey⟩
  simp only [getCommits, fileGet, hkey "commits" [author, dateRange]]

/-- C3 is refuted: a stored entry whose bytes fail to deserialize makes
`FileCache.Get` return an error to its caller (not a silent miss), and a
payload that fails to deserialize into the target returns an error without
deleting the file. -/
theorem C3_counterexample :
    (fileGet [("k", CacheFile.corrupt)] "k" 0).1.err =
      some "failed to unmarshal cache entry" ∧
    (fileGet [("k", CacheFile.entry .incompatible 0 100)] "k" 0).1.err =
      some "failed to unmarshal target data" ∧
    (fileGet [("k", CacheFile.entry .incompatible 0 100)] "k" 0).2 =
      [("k", CacheFile.entry .incompatible 0 100)] :=
  ⟨by decide, by decide, by decide⟩

/-- C3 (amended): on entry-deserialization failure the file is deleted and
`Get` returns `found = false` together with an error; on expiry the file
is deleted and `Get` returns a clean miss; on payload-to-target failure
`Get` returns `found = false` with an error and does not delete; in every
one of these cases `GetCommitsForRange` (which uses the cache only when
`err == nil && found`) proceeds to fetch from the external source exactly
as on a miss. -/
theorem C3_cache_failures_are_misses (store : Store) (key : String) (now : Int) :
    (store.lookup key = some .corrupt →
      (fileGet store key now).1.found = false ∧
      (fileGet store key now).1.err.isSome = true ∧
      ((fileGet store key now).2).lookup key = none ∧
      usesCachedResult (fileGet store key now).1.found (fileGet store key now).1.err =
        false) ∧
    (∀ payload ts ttl, store.lookup key = some (.entry payload ts ttl) →
      now - ts > ttl →
      (fileGet store key now).1 = ⟨none, false, none⟩ ∧
      ((fileGet store key now).2).lookup key = none) ∧
    (∀ ts ttl, store.lookup key = some (.entry .incompatible ts ttl) →
      ¬now - ts > ttl →
      (fileGet store key now).1.found = false ∧
      (fileGet store key now).1.err.isSome = true ∧
      (fileGet store key now).2 = store ∧
      usesCachedResult (fileGet store key now).1.found (fileGet store key now).1.err =
        false) ∧
    (∀ (found : Bool) (err : Option String),
      usesCachedResult found err = true ↔ found = true ∧ err = none) := by
  refine ⟨?_, ?_, ?_, ?_⟩
  · intro hl
    simp [fileGet, hl, usesCachedResult, lookup_removeFile]
  · intro payload ts ttl hl hexp
    simp only [fileGet, hl]
    rw [if_pos (show isExpired now ts ttl = true by
      simp only [isExpired, decide_eq_true_eq]; omega)]
    exact ⟨rfl, lookup_removeFile _ key⟩
  · intro ts ttl hl hexp
    simp only [fileGet, hl]
    rw [if_neg (show ¬isExpired now ts ttl = true by
      simp only [isExpired, decide_eq_true_eq]; omega)]
    exact ⟨rfl, rfl, rfl, rfl⟩
  · intro found err
    cases found <;> cases err <;> simp [usesCachedResult]

/-- Witness for `C3_cache_failures_are_misses` at concrete stores for each
failure mode. -/
theorem C3_cache_failures_witness :
    ((fileGet [("k", CacheFile.corrupt)] "k" 7).1.found = false ∧
      (fileGet [("k", CacheFile.corrupt)] "k" 7).1.err.isSome = true ∧
      ((fileGet [("k", CacheFile.corrupt)] "k" 7).2).lookup "k" = none ∧
      usesCachedResult (fileGet [("k", CacheFile.corrupt)] "k" 7).1.found
        (fileGet [("k", CacheFile.corrupt)] "k" 7).1.err = false) ∧
    ((fileGet [("k", CacheFile.entry .incompatible 0 100)] "k" 7).1.found = false ∧
      (fileGet [("k", CacheFile.entry .incompatible 0 100)] "k" 7).1.err.isSome =
        true ∧
      (fileGet [("k", CacheFile.entry .incompatible 0 100)] "k" 7).2 =
        [("k", CacheFile.entry .incompatible 0 100)] ∧
      usesCachedResult
        (fileGet [("k", CacheFile.entry .incompatible 0 100)] "k" 7).1.found
        (fileGet [("k", CacheFile.entry .incompatible 0 100)] "k" 7).1.err = false) :=
  ⟨(C3_cache_failures_are_misses [("k", CacheFile.corrupt)] "k" 7).1 (by decide),
   (C3_cache_failures_are_misses [("k", CacheFile.entry .incompatible 0 100)] "k"
      7).2.2.1 0 100 (by decide) (by decide)⟩

/-- C10: when the external tool's output is empty or whitespace-only,
`FetchCommitsByAuthorAndDate` succeeds with an empty commit map, an empty
repo list, an empty warning, and no error — zero commits is never an
error. -/
theorem C10_empty_output
    (decodeArray decodeStream : List Char → Except String (List CommitSearchItem))
    (out : List Char) (h : ∀ c ∈ out, isGoSpace c = true) :
    fetchCommitsFromOutput decodeArray decodeStream out = .ok ⟨[], [], ""⟩ := by
  have htrim : trimSpace out = [] := by
    have h1 : out.dropWhile isGoSpace = [] := List.dropWhile_eq_nil_iff.mpr h
    simp [trimSpace, h1]
  simp [fetchCommitsFromOutput, parseCommitSearchItems, htrim, buildCommitData,
    groupItems, sortStrings, List.mergeSort]

/-- Witness for `C10_empty_output` on the whitespace-only output
`"  \n"`. -/
theorem C10_empty_output_witness :
    fetchCommitsFromOutput (fun _ => .ok []) (fun _ => .ok []) "  \n".data =
      .ok ⟨[], [], ""⟩ :=
  C10_empty_output (fun _ => .ok []) (fun _ => .ok []) "  \n".data (by decide)

/-- C2 is refuted on the selection: a successful fetch completion in the
`Loading` screen leaves `selected` untouched, so a repo marked selected
before the load is still marked selected afterwards. -/
theorem C2_counterexample :
    (update extFixed
        { baseModel with screen := .loading, loading := true, selected := [("X", true)] }
        (.commitsLoaded [("Y", [⟨"Y", "m"⟩])] ["Y"] "" none)).selected =
      [("X", true)] ∧
    (update extFixed
        { baseModel with screen := .loading, loading := true, selected := [("X", true)] }
        (.commitsLoaded [("Y", [⟨"Y", "m"⟩])] ["Y"] "" none)).screen = .repoList :=
  ⟨by decide, by decide⟩

/-- C2 (amended): on a successful fetch completion in `Loading` the session
moves to `RepoList` with the cursor reset to 0, the error cleared, the
fetched data installed, and the displayed list recomputed from the filter
input when one is present; the repo selection is NOT cleared — it is
carried over unchanged (stale entries persist, to be intersected with the
current repo list by consumers). -/
theorem C2_loading_success (ext : Ext) (m : Model)
    (commits : List (String × List Commit)) (repoList : List String)
    (warning : String) (hscr : m.screen = .loading) :
    (update ext m (.commitsLoaded commits repoList warning none)).screen =
        .repoList ∧
    (update ext m (.commitsLoaded commits repoList warning none)).cursor = 0 ∧
    (update ext m (.commitsLoaded commits repoList warning none)).err = none ∧
    (update ext m (.commitsLoaded commits repoList warning none)).loading = false ∧
    (update ext m (.commitsLoaded commits repoList warning none)).commits =
        commits ∧
    (update ext m (.commitsLoaded commits repoList warning none)).repoList =
        repoList ∧
    (update ext m (.commitsLoaded commits repoList warning none)).warning =
        warning ∧
    (update ext m (.commitsLoaded commits repoList warning none)).selected =
        m.selected ∧
    (m.filterInputValue ≠ "" →
      (update ext m (.commitsLoaded commits repoList warning none)).filterActive =
          true ∧
      (update ext m (.commitsLoaded commits repoList warning none)).filteredRepos =
        filterReposByPattern repoList m.filterInputValue) ∧
    (m.filterInputValue = "" →
      (update ext m (.commitsLoaded commits repoList warning none)).filterActive =
          false ∧
      (update ext m (.commitsLoaded commits repoList warning none)).filteredRepos =
        repoList) := by
  by_cases hv : m.filterInputValue = "" <;>
    simp [update, dispatch, hscr, updateLoading, hv]

/-- Witness for `C2_loading_success` at a concrete loading session with a
configured filter pattern. -/
theorem C2_loading_success_witness :
    (update extFixed
        { baseModel with screen := .loading, loading := true
                         filterInputValue := "org/*" }
        (.commitsLoaded [("org/a", [⟨"org/a", "m"⟩])] ["org/a"] "" none)).screen =
        .repoList ∧
    (update extFixed
        { baseModel with screen := .loading, loading := true
                         filterInputValue := "org/*" }
        (.commitsLoaded [("org/a", [⟨"org/a", "m"⟩])] ["org/a"] "" none)).cursor =
        0 ∧
    (update extFixed
        { baseModel with screen := .loading, loading := true
                         filterInputValue := "org/*" }
        (.commitsLoaded [("org/a", [⟨"org/a", "m"⟩])] ["org/a"] "" none)).err =
        none ∧
    (update extFixed
        { baseModel with screen := .loading, loading := true
                         filterInputValue := "org/*" }
        (.commitsLoaded [("org/a", [⟨"org/a", "m"⟩])] ["org/a"] "" none)).loading =
        false ∧
    (update extFixed
        { baseModel with screen := .loading, loading := true
                         filterInputValue := "org/*" }
        (.commitsLoaded [("org/a", [⟨"org/a", "m"⟩])] ["org/a"] "" none)).commits =
        [("org/a", [⟨"org/a", "m"⟩])] ∧
    (update extFixed
        { baseModel with screen := .loading, loading := true
                         filterInputValue := "org/*" }
        (.commitsLoaded [("org/a", [⟨"org/a", "m"⟩])] ["org/a"] "" none)).repoList =
        ["org/a"] ∧
    (update extFixed
        { baseModel with screen := .loading, loading := true
                         filterInputValue := "org/*" }
        (.commitsLoaded [("org/a", [⟨"org/a", "m"⟩])] ["org/a"] "" none)).warning =
        "" ∧
    (update extFixed
        { baseModel with screen := .loading, loading := true
                         filterInputValue := "org/*" }
        (.commitsLoaded [("org/a", [⟨"org/a", "m"⟩])] ["org/a"] "" none)).selected =
        ({ baseModel with screen := .loading, loading := true
                          filterInputValue := "org/*" } : Model).selected ∧
    (({ baseModel with screen := .loading, loading := true
                       filterInputValue := "org/*" } : Model).filterInputValue ≠ "" →
      (update extFixed
          { baseModel with screen := .loading, loading := true
                           filterInputValue := "org/*" }
          (.commitsLoaded [("org/a", [⟨"org/a", "m"⟩])] ["org/a"] ""
            none)).filterActive = true ∧
      (update extFixed
          { baseModel with screen := .loading, loading := true
                           filterInputValue := "org/*" }
          (.commitsLoaded [("org/a", [⟨"org/a", "m"⟩])] ["org/a"] ""
            none)).filteredRepos =
        filterReposByPattern ["org/a"]
          ({ baseModel with screen := .loading, loading := true
                            filterInputValue := "org/*" } : Model).filterInputValue) ∧
    (({ baseModel with screen := .loading, loading := true
                       filterInputValue := "org/*" } : Model).filterInputValue = "" →
      (update extFixed
          { baseModel with screen := .loading, loading := true
                           filterInputValue := "org/*" }
          (.commitsLoaded [("org/a", [⟨"org/a", "m"⟩])] ["org/a"] ""
            none)).filterActive = false ∧
      (update extFixed
          { baseModel with screen := .loading, loading := true
                           filterInputValue := "org/*" }
          (.commitsLoaded [("org/a", [⟨"org/a", "m"⟩])] ["org/a"] ""
            none)).filteredRepos = ["org/a"]) :=
  C2_loading_success extFixed
    { baseModel with screen := .loading, loading := true, filterInputValue := "org/*" }
    [("org/a", [⟨"org/a", "m"⟩])] ["org/a"] "" (by decide)

/-- C9: cancelling from `Loading` returns to date-range selection, and a
commit-fetch completion event that arrives afterwards is not acted on: the
whole session state — screen, commits, repo list, selection, error — is
left exactly as it was. -/
theorem C9_cancel_ignores_late_completion (ext : Ext) (m : Model)
    (commits : List (String × List Commit)) (repoList : List String)
    (warning : String) (err : Option String) (hscr : m.screen = .loading) :
    (update ext m (.key "esc")).screen = .dateRange ∧
    (update ext m (.key "esc")).loading = false ∧
    (update ext m (.key "esc")).err = none ∧
    update ext (update ext m (.key "esc"))
        (.commitsLoaded commits repoList warning err) =
      update ext m (.key "esc") := by
  simp [update, dispatch, hscr, updateLoading, updateDateRange]

/-- Witness for `C9_cancel_ignores_late_completion` at a concrete loading
session and a concrete late completion event. -/
theorem C9_cancel_witness :
    (update extFixed { baseModel with screen := .loading, loading := true }
        (.key "esc")).screen = .dateRange ∧
    (update extFixed { baseModel with screen := .loading, loading := true }
        (.key "esc")).loading = false ∧
    (update extFixed { baseModel with screen := .loading, loading := true }
        (.key "esc")).err = none ∧
    update extFixed
        (update extFixed { baseModel with screen := .loading, loading := true }
          (.key "esc"))
        (.commitsLoaded [("r", [⟨"r", "m"⟩])] ["r"] "w" (some "late")) =
      update extFixed { baseModel with screen := .loading, loading := true }
        (.key "esc") :=
  C9_cancel_ignores_late_completion extFixed
    { baseModel with screen := .loading, loading := true }
    [("r", [⟨"r", "m"⟩])] ["r"] "w" (some "late") (by decide)

/-- C8 is refuted: the error attached to session state is not cleared by
the next keystroke (here the key `"x"` on the statistics screen leaves
`err` in place), and a non-key event (a spinner tick) does not clear the
transient message either. -/
theorem C8_counterexample :
    (update extFixed { baseModel with screen := .stats, err := some "boom" }
        (.key "x")).err = some "boom" ∧
    (update extFixed
        { baseModel with screen := .loading, loading := true, message := "old" }
        .spinnerTick).message = "old" :=
  ⟨by decide, by decide⟩

theorem dispatch_nonkey_message (ext : Ext) (m : Model) (msg : Msg)
    (h : ∀ k, msg ≠ .key k) :
    (dispatch ext m msg).message = m.message := by
  cases msg with
  | key k => exact absurd rfl (h k)
  | spinnerTick =>
    cases hs : m.screen <;>
      simp [dispatch, hs, updateDateRange, updateDateSelect, updateRepoFilter,
        updateRepoList, updateSummary, updateExport, updateStats, updateLoading]
  | commitsLoaded commits repoList warning err =>
    cases hs : m.screen <;>
      simp [dispatch, hs, updateDateRange, updateDateSelect, updateRepoFilter,
        updateRepoList, updateSummary, updateExport, updateStats, updateLoading] <;>
      by_cases hv : m.filterInputValue = "" <;> simp [hv]

/-- C8 (amended): on any key press other than Ctrl+C the transient message
is cleared before the per-screen handler runs, so it survives only if that
handler sets a new one, and the clearing itself changes nothing else — in
particular no screen transition and no change to the error field; Ctrl+C
quits with the state unchanged; non-key events — spinner ticks and
commit-fetch completion events alike — are dispatched without the
clearing and leave the message as the handler received it. -/
theorem C8_message_clearing (ext : Ext) (m : Model) (k : String)
    (h : k ≠ "ctrl+c") :
    update ext m (.key k) = dispatch ext { m with message := "" } (.key k) ∧
    ({ m with message := "" } : Model).screen = m.screen ∧
    ({ m with message := "" } : Model).err = m.err ∧
    update ext m .spinnerTick = dispatch ext m .spinnerTick ∧
    (update ext m .spinnerTick).message = m.message ∧
    (∀ (commits : List (String × List Commit)) (repoList : List String)
        (warning : String) (err : Option String),
      update ext m (.commitsLoaded commits repoList warning err) =
        dispatch ext m (.commitsLoaded commits repoList warning err)) ∧
    (∀ (commits : List (String × List Commit)) (repoList : List String)
        (warning : String) (err : Option String),
      (update ext m (.commitsLoaded commits repoList warning err)).message =
        m.message) ∧
    update ext m (.key "ctrl+c") = m := by
  refine ⟨?_, rfl, rfl, rfl, ?_, fun commits repoList warning err => rfl,
    fun commits repoList warning err => ?_, ?_⟩
  · simp only [update]
    rw [if_neg h]
  · exact dispatch_nonkey_message ext m .spinnerTick fun k heq => Msg.noConfusion heq
  · exact dispatch_nonkey_message ext m
      (.commitsLoaded commits repoList warning err) fun k heq => Msg.noConfusion heq
  · simp [update]

/-- Witness for `C8_message_clearing` at a concrete key, session, and
completion event. -/
theorem C8_message_clearing_witness :
    update extFixed { baseModel with message := "hello" } (.key "x") =
        dispatch extFixed
          { { baseModel with message := "hello" } with message := "" } (.key "x") ∧
    ({ { baseModel with message := "hello" } with message := "" } : Model).screen =
        ({ baseModel with message := "hello" } : Model).screen ∧
    ({ { baseModel with message := "hello" } with message := "" } : Model).err =
        ({ baseModel with message := "hello" } : Model).err ∧
    update extFixed { baseModel with message := "hello" } .spinnerTick =
        dispatch extFixed { baseModel with message := "hello" } .spinnerTick ∧
    (update extFixed { baseModel with message := "hello" } .spinnerTick).message =
        ({ baseModel with message := "hello" } : Model).message ∧
    update extFixed { baseModel with message := "hello" }
          (.commitsLoaded [("r", [⟨"r", "m"⟩])] ["r"] "w" none) =
        dispatch extFixed { baseModel with message := "hello" }
          (.commitsLoaded [("r", [⟨"r", "m"⟩])] ["r"] "w" none) ∧
    (update extFixed { baseModel with message := "hello" }
          (.commitsLoaded [("r", [⟨"r", "m"⟩])] ["r"] "w" none)).message =
        ({ baseModel with message := "hello" } : Model).message ∧
    update extFixed { baseModel with message := "hello" } (.key "ctrl+c") =
        { baseModel with message := "hello" } := by
  have h := C8_message_clearing extFixed { baseModel with message := "hello" } "x"
    (by decide)
  exact ⟨h.1, h.2.1, h.2.2.1, h.2.2.2.1, h.2.2.2.2.1,
    h.2.2.2.2.2.1 [("r", [⟨"r", "m"⟩])] ["r"] "w" none,
    h.2.2.2.2.2.2.1 [("r", [⟨"r", "m"⟩])] ["r"] "w" none,
    h.2.2.2.2.2.2.2⟩

end Commitsum
